import Mathlib

/-!
Verification of the PNM decoder (`src/pnm/decoder.rs`).

The decoder is shallowly embedded: byte streams are `List Nat` (each element
one byte of the input, `0 ≤ b ≤ 255` for real inputs), Rust strings are byte
lists, `u32` values are `Nat`, with wrapping `u32` multiplication modelled
explicitly as `% 2^32` wherever the source's arithmetic can overflow (the
bitmap length computations), and fallible functions return
`Except ImageError _`.  Where the Rust code can panic (out-of-bounds
indexing, `bytes.chunks(0)`, `unimplemented!()`), the embedding returns a
dedicated `panicked` outcome so that panics are distinguishable from
returned errors.
-/

namespace Pnm

/-- Byte value of each character of an ASCII string literal; used to write
byte-list inputs readably. -/
def strToBytes (s : String) : List Nat := s.data.map Char.toNat

/-- The color classification enum consumed from the surrounding image layer
(`color::ColorType`); only the constructors used by this module are modelled. -/
inductive ColorType
  | Gray (bits : Nat)
  | GrayA (bits : Nat)
  | RGB (bits : Nat)
  | RGBA (bits : Nat)
deriving DecidableEq

/-- Error taxonomy of `image::ImageError` as used by the decoder.  Message
strings are kept verbatim from the source. -/
inductive ImageError
  | FormatError (msg : String)
  | NotEnoughData
  | IoError
  | UnsupportedColor (c : ColorType)
deriving DecidableEq

/-- `enum TupleType` — dynamic representation of all decodable
(sample, depth) combinations. -/
inductive TupleType
  | PbmBit
  | BWBit
  | GrayU8
  | GrayU16
  | RGBU8
  | RGBU16
deriving DecidableEq

/-- `enum SampleEncoding`. -/
inductive SampleEncoding
  | Ascii
  | Binary
deriving DecidableEq

/-- `enum ArbitraryTuplType`; `Custom` carries the raw tuple-type string as a
byte list. -/
inductive ArbitraryTuplType
  | BlackAndWhite
  | BlackAndWhiteAlpha
  | Grayscale
  | GrayscaleAlpha
  | RGB
  | RGBAlpha
  | Custom (s : List Nat)
deriving DecidableEq

/-- `struct ArbitraryHeader` (PAM / P7 header record). -/
structure ArbitraryHeader where
  height : Nat
  width : Nat
  depth : Nat
  maxval : Nat
  tupltype : Option ArbitraryTuplType
deriving DecidableEq

/-- `struct PixmapHeader`. -/
structure PixmapHeader where
  encoding : SampleEncoding
  width : Nat
  height : Nat
  maxval : Nat
deriving DecidableEq

/-- `struct GraymapHeader`. -/
structure GraymapHeader where
  encoding : SampleEncoding
  width : Nat
  height : Nat
  maxwhite : Nat
deriving DecidableEq

/-- `TupleType::color` — the mapping from the resolved tuple type to the
color classification returned by `colortype()`.  Translated arm by arm from
the source (note the `RGBU16` arm). -/
def TupleType.color : TupleType → ColorType
  | .PbmBit => .Gray 1
  | .BWBit => .Gray 1
  | .GrayU8 => .Gray 8
  | .GrayU16 => .Gray 16
  | .RGBU8 => .RGB 8
  | .RGBU16 => .GrayA 16

/-- `impl DecodableImageHeader for PixmapHeader` — tuple-type resolution for
P3/P6 headers. -/
def PixmapHeader.tuple_type (h : PixmapHeader) : Except ImageError TupleType :=
  if h.maxval ≤ 0xFF then .ok .RGBU8
  else if h.maxval ≤ 0xFFFF then .ok .RGBU16
  else .error (.FormatError "Image maxval is not less or equal to 65535")

/-- `impl DecodableImageHeader for GraymapHeader` — tuple-type resolution for
P2/P5 headers. -/
def GraymapHeader.tuple_type (h : GraymapHeader) : Except ImageError TupleType :=
  if h.maxwhite ≤ 0xFF then .ok .GrayU8
  else if h.maxwhite ≤ 0xFFFF then .ok .GrayU16
  else .error (.FormatError "Image maxval is not less or equal to 65535")

/-- `impl DecodableImageHeader for ArbitraryHeader` — tuple-type resolution
for P7 headers, translated arm by arm in source order (the final Rust `_`
arm catches both a missing tuple type with an unlisted depth and a custom
tuple-type string). -/
def ArbitraryHeader.tuple_type (h : ArbitraryHeader) : Except ImageError TupleType :=
  match h.tupltype with
  | none =>
    if h.depth = 1 then .ok .GrayU8
    else if h.depth = 2 then .error (.UnsupportedColor (.GrayA 8))
    else if h.depth = 3 then .ok .RGBU8
    else if h.depth = 4 then .error (.UnsupportedColor (.RGBA 8))
    else .error (.FormatError "Tuple type not recognized")
  | some .BlackAndWhite =>
    if h.maxval = 1 ∧ h.depth = 1 then .ok .BWBit
    else .error (.FormatError "Invalid depth or maxval for tuple type BLACKANDWHITE")
  | some .Grayscale =>
    if h.depth = 1 ∧ h.maxval ≤ 0xFF then .ok .GrayU8
    else if h.depth ≤ 1 ∧ h.maxval ≤ 0xFFFF then .ok .GrayU16
    else .error (.FormatError "Invalid depth or maxval for tuple type GRAYSCALE")
  | some .RGB =>
    if h.depth = 3 ∧ h.maxval ≤ 0xFF then .ok .RGBU8
    else if h.depth = 3 ∧ h.maxval ≤ 0xFFFF then .ok .RGBU16
    else .error (.FormatError "Invalid depth for tuple type RGB")
  | some .BlackAndWhiteAlpha => .error (.UnsupportedColor (.GrayA 1))
  | some .GrayscaleAlpha => .error (.UnsupportedColor (.GrayA 8))
  | some .RGBAlpha => .error (.UnsupportedColor (.RGBA 8))
  | some (.Custom _) => .error (.FormatError "Tuple type not recognized")

/-- ASCII bytes recognized as whitespace by `char::is_whitespace` and by the
tokenizer's whitespace match arms: tab, LF, VT, FF, CR, space. -/
def isWsB (b : Nat) : Bool := b = 9 || b = 10 || b = 11 || b = 12 || b = 13 || b = 32

/-- ASCII decimal digit test. -/
def isDigitB (b : Nat) : Bool := 48 ≤ b && b ≤ 57

/-- Rust `str::parse::<u32>` on a byte string: an optional leading `+` (43),
then one or more decimal digits whose value fits in 32 bits; anything else
(empty input, a `-` sign, non-digits, overflow) is a parse failure, modelled
as `none`. -/
def parseU32 (s : List Nat) : Option Nat :=
  let digits := match s with
    | 43 :: tl => tl
    | _ => s
  if digits.isEmpty then none
  else if digits.all isDigitB then
    let v := digits.foldl (fun a b => a * 10 + (b - 48)) 0
    if v < 4294967296 then some v else none
  else none

/-- Rust `str::trim` on a byte string: strip leading and trailing whitespace. -/
def trimBytes (s : List Nat) : List Nat :=
  ((s.dropWhile isWsB).reverse.dropWhile isWsB).reverse

/-- The sequence of lines produced by repeatedly calling `BufRead::read_line`
on the stream: each line runs through its terminating LF inclusive; a final
unterminated chunk is returned as-is.  Every produced line is nonempty; once
the list is exhausted, a further `read_line` yields the empty line. -/
def splitLines : List Nat → List (List Nat)
  | [] => []
  | b :: tl =>
    if b = 10 then [10] :: splitLines tl
    else
      match splitLines tl with
      | [] => [[b]]
      | l :: ls => (b :: l) :: ls

/-- Outcome of parsing a P7 header: the source can panic (out-of-bounds index
on an empty line), fail with an error, or produce a header. -/
inductive PamResult
  | panicked
  | error (e : ImageError)
  | ok (h : ArbitraryHeader)
deriving DecidableEq

/-- Giving the final field checks and tuple-type string mapping performed by
`read_arbitrary_header` after its line loop breaks on `ENDHDR`. -/
def finishPam (height width depth maxval : Option Nat) (tupltype : Option (List Nat)) :
    PamResult :=
  match height with
  | none => .error (.FormatError "Expected one HEIGHT line")
  | some h =>
  match width with
  | none => .error (.FormatError "Expected one WIDTH line")
  | some w =>
  match depth with
  | none => .error (.FormatError "Expected one DEPTH line")
  | some d =>
  match maxval with
  | none => .error (.FormatError "Expected one MAXVAL line")
  | some m =>
  let tt : Option ArbitraryTuplType :=
    match tupltype with
    | none => none
    | some t =>
      if t = strToBytes "BLACKANDWHITE" then some .BlackAndWhite
      else if t = strToBytes "BLACKANDWHITE_ALPHA" then some .BlackAndWhiteAlpha
      else if t = strToBytes "GRAYSCALE" then some .Grayscale
      else if t = strToBytes "GRAYSCALE_ALPHA" then some .GrayscaleAlpha
      else if t = strToBytes "RGB" then some .RGB
      else if t = strToBytes "RGB_ALPHA" then some .RGBAlpha
      else some (.Custom t)
  .ok ⟨h, w, d, m, tt⟩

/-- The line loop of `read_arbitrary_header`, over the sequence of lines that
`read_line` yields.  At end of input `read_line` returns an empty line and the
source indexes `line.as_bytes()[0]`, which panics; both empty-line branches
below model that indexing.  Other branches follow the source line by line:
skip `#` lines, reject non-ASCII lines, split the left-trimmed line at the
first whitespace of the untrimmed line, then dispatch on the identifier. -/
def parsePamLines :
    List (List Nat) → Option Nat → Option Nat → Option Nat → Option Nat →
    Option (List Nat) → PamResult
  | [], _, _, _, _, _ => .panicked
  | line :: rest, height, width, depth, maxval, tupltype =>
    match line with
    | [] => .panicked
    | b :: _ =>
      if b = 35 then parsePamLines rest height width depth maxval tupltype
      else if line.any (fun c => 128 ≤ c) then
        .error (.FormatError "Only ascii characters allowed in pam header")
      else
        let trimmed := line.dropWhile isWsB
        let idx := (line.findIdx? isWsB).getD line.length
        let identifier := trimmed.take idx
        let value := trimmed.drop idx
        if identifier = strToBytes "ENDHDR" then
          finishPam height width depth maxval tupltype
        else if identifier = strToBytes "HEIGHT" then
          match height with
          | some _ => .error (.FormatError "Duplicate HEIGHT line")
          | none =>
            match parseU32 (trimBytes value) with
            | none => .error (.FormatError "Invalid height")
            | some h => parsePamLines rest (some h) width depth maxval tupltype
        else if identifier = strToBytes "WIDTH" then
          match width with
          | some _ => .error (.FormatError "Duplicate WIDTH line")
          | none =>
            match parseU32 (trimBytes value) with
            | none => .error (.FormatError "Invalid width")
            | some w => parsePamLines rest height (some w) depth maxval tupltype
        else if identifier = strToBytes "DEPTH" then
          match depth with
          | some _ => .error (.FormatError "Duplicate DEPTH line")
          | none =>
            match parseU32 (trimBytes value) with
            | none => .error (.FormatError "Invalid depth")
            | some d => parsePamLines rest height width (some d) maxval tupltype
        else if identifier = strToBytes "MAXVAL" then
          match maxval with
          | some _ => .error (.FormatError "Duplicate MAXVAL line")
          | none =>
            match parseU32 (trimBytes value) with
            | none => .error (.FormatError "Invalid maxval")
            | some m => parsePamLines rest height width depth (some m) tupltype
        else if identifier = strToBytes "TUPLTYPE" then
          let v := trimBytes value
          match tupltype with
          | some old => parsePamLines rest height width depth maxval (some (old ++ 32 :: v))
          | none => parsePamLines rest height width depth maxval (some v)
        else .error (.FormatError "Unknown header line")

/-- `read_arbitrary_header`, applied to the stream positioned just after the
`P7` magic bytes: the first byte must be a single LF, then the line loop runs
on the remainder.  (The source's io-error arm on the first byte is not
reachable for the error-free streams modelled here.) -/
def readArbitraryHeader (s : List Nat) : PamResult :=
  match s with
  | [] => .error (.FormatError "Input too short")
  | 10 :: rest => parsePamLines (splitLines rest) none none none none none
  | _ :: _ => .error (.FormatError "Expected newline after P7")

/-- One item yielded by `Read::bytes()` on the underlying stream: a byte, or
an IO read failure. -/
inductive SItem
  | ok (b : Nat)
  | ioerr
deriving DecidableEq

/-- Final classification of the accumulated token bytes in
`read_next_string`: empty means unexpected end of input, otherwise the bytes
must be pure ASCII (the `from_utf8` failure arm is unreachable for ASCII). -/
def finishToken (acc : List Nat) : Except ImageError (List Nat) :=
  if acc.isEmpty then .error (.FormatError "Unexpected eof")
  else if acc.all (fun b => b < 128) then .ok acc
  else .error (.FormatError "Non ascii character in preamble")

/-- The byte loop of `read_next_string`.  `partof` is the comment-mask state
threaded by the source's `scan`: an `Ok` byte is kept iff `partof` holds and
the byte is not `#`; the state becomes `kept || byte ∈ {CR, LF}`.  An `Err`
item is kept iff `partof` holds (state unchanged), and a kept `Err` breaks
the accumulation loop.  Kept whitespace breaks once the accumulator is
nonempty and is skipped otherwise; other kept bytes are accumulated. -/
def readNextStringLoop : List SItem → Bool → List Nat → Except ImageError (List Nat)
  | [], _, acc => finishToken acc
  | .ioerr :: rest, partof, acc =>
    if partof then finishToken acc else readNextStringLoop rest partof acc
  | .ok b :: rest, partof, acc =>
    let cur := partof && b != 35
    let next := cur || b == 13 || b == 10
    if cur then
      if isWsB b then
        if acc.isEmpty then readNextStringLoop rest next acc else finishToken acc
      else readNextStringLoop rest next (acc ++ [b])
    else readNextStringLoop rest next acc

/-- `read_next_string`: the whitespace/comment-aware tokenizer used for all
header fields of P1..P6. -/
def readNextString (s : List SItem) : Except ImageError (List Nat) :=
  readNextStringLoop s true []

/-- `read_next_u32`: `read_next_string` followed by `parse::<u32>`. -/
def readNextU32 (s : List SItem) : Except ImageError Nat :=
  match readNextString s with
  | .error e => .error e
  | .ok tok =>
    match parseU32 tok with
    | some v => .ok v
    | none => .error (.FormatError "Invalid number in preamble")

/-- The token predicate of `read_ascii_sample`: every byte other than the six
whitespace bytes is part of a token — including `#`. -/
def istoken (b : Nat) : Bool := !isWsB b

/-- `read_ascii_sample` on an error-free stream: skip non-token bytes, take
token bytes (the terminating byte, if any, is consumed by `take_while`),
check ASCII, then parse as `u32`.  Returns the outcome together with the
unconsumed remainder of the stream. -/
def readAsciiSample (s : List Nat) : Except ImageError Nat × List Nat :=
  let s1 := s.dropWhile (fun b => !istoken b)
  let token := s1.takeWhile istoken
  let rest := (s1.dropWhile istoken).drop 1
  if token.all (fun b => b < 128) then
    match parseU32 token with
    | some v => (.ok v, rest)
    | none => (.error (.FormatError "Error parsing sample value"), rest)
  else (.error (.FormatError "Non ascii character where sample value was expected"), rest)

/-- `read_ascii::<S>`: read `n = width * height * components` ASCII samples in
order, converting each through the sample type's `from_unsigned`. -/
def readAscii (fromUnsigned : Nat → Except ImageError Nat) :
    Nat → List Nat → Except ImageError (List Nat)
  | 0, _ => .ok []
  | n + 1, s =>
    match readAsciiSample s with
    | (.error e, _) => .error e
    | (.ok v, rest) =>
      match fromUnsigned v with
      | .error e => .error e
      | .ok sample =>
        match readAscii fromUnsigned n rest with
        | .error e => .error e
        | .ok buf => .ok (sample :: buf)

/-- Wrapping `u32` arithmetic: the value of a `u32` expression computed on
`Nat`, reduced modulo `2^32` (release-build semantics; with debug assertions
the overflowing multiply panics instead of wrapping). -/
def u32 (n : Nat) : Nat := n % 4294967296

/-- Outcome of `PbmBit::from_bytes`: the source can panic (a zero chunk size
in `bytes.chunks`, or an out-of-bounds slice index) or return the sample
buffer; its `Err` path is never taken. -/
inductive DecodeOutcome
  | panicked
  | ok (samples : List Nat)
deriving DecidableEq

/-- `PbmBit::bytelen`: each row is padded independently to a whole byte, so
the binary payload is `ceil(width * samples / 8) * height` bytes, computed
in wrapping `u32` arithmetic exactly as the source does (`width * samples`
and `linelen * height` are `u32` multiplies); the source returns `Ok`
unconditionally.  The sum `count / 8 + 1` cannot overflow. -/
def PbmBit.bytelen (width height samples : Nat) : Nat :=
  let count := u32 (width * samples)
  let linelen := count / 8 + (if count % 8 ≠ 0 then 1 else 0)
  u32 (linelen * height)

/-- The bit extracted by the body of the source's inner sample loop:
`(linebuffer[samplei / 8] >> (7 - samplei % 8)) & 0x01`, already inverted to
the output convention (`1` for a `0` source bit, `0` for a `1` source bit). -/
def pbmChunkBit (linebuffer : List Nat) (samplei : Nat) : Nat :=
  if (linebuffer.getD (samplei / 8) 0 >>> (7 - samplei % 8)) % 2 = 0 then 1 else 0

/-- The decoded output sample of row `r`, column `c`, read from the full
payload: bit `7 - c % 8` of `bytes[r * stride + c / 8]`, inverted; this is
the value the double loop stores at `buffer[r * width + c]`. -/
def pbmBitAt (bytes : List Nat) (stride r c : Nat) : Nat :=
  if (bytes.getD (r * stride + c / 8) 0 >>> (7 - c % 8)) % 2 = 0 then 1 else 0

/-- One read of `linebuffer[samplei / 8]`: `none` models the index panic
when the chunk is shorter than the accessed index (reachable when the
wrapped byte length disagrees with the unwrapped row geometry). -/
def pbmReadSample (linebuffer : List Nat) (samplei : Nat) : Option Nat :=
  if samplei / 8 < linebuffer.length then some (pbmChunkBit linebuffer samplei)
  else none

/-- The source's inner loop `for samplei in 0..linecount`: reads the sample
bit from the chunk, then writes `buffer[outbase + samplei]`; `samplei`
counts up while `k` counts the remaining iterations, and `none` models an
index panic on the chunk read or the buffer write. -/
def pbmLineLoop (chunk : List Nat) (outbase : Nat) :
    Nat → Nat → List Nat → Option (List Nat)
  | _, 0, buffer => some buffer
  | samplei, k + 1, buffer =>
    match pbmReadSample chunk samplei with
    | none => none
    | some v =>
      if outbase + samplei < buffer.length then
        pbmLineLoop chunk outbase (samplei + 1) k (buffer.set (outbase + samplei) v)
      else none

/-- The source's outer loop `for (line, linebuffer) in
bytes.chunks(linebytelen).enumerate()`: chunk `line` is the slice
`bytes[line*linebytelen ..][.. linebytelen]`, `outbase = line * linecount`;
`line` counts up while `k` counts the remaining chunks. -/
def pbmChunkLoop (bytes : List Nat) (linebytelen linecount : Nat) :
    Nat → Nat → List Nat → Option (List Nat)
  | _, 0, buffer => some buffer
  | line, k + 1, buffer =>
    match pbmLineLoop ((bytes.drop (line * linebytelen)).take linebytelen)
        (line * linecount) 0 linecount buffer with
    | none => none
    | some buffer2 => pbmChunkLoop bytes linebytelen linecount (line + 1) k buffer2

/-- `PbmBit::from_bytes`: `linecount` and the buffer size are wrapping `u32`
products; `bytes.chunks(linebytelen)` panics when `linebytelen = 0` (i.e.
whenever `width * samples` wraps to 0 — in particular for a zero-width
bitmap); otherwise the double loop runs over
`ceil(bytes.len / linebytelen)` chunks, writing
`buffer[line * linecount + samplei]` from bit `7 - samplei % 8` of
`linebuffer[samplei / 8]` with inverted polarity. -/
def PbmBit.from_bytes (bytes : List Nat) (width height samples : Nat) : DecodeOutcome :=
  let linecount := u32 (width * samples)
  let linebytelen := linecount / 8 + (if linecount % 8 ≠ 0 then 1 else 0)
  if linebytelen = 0 then .panicked
  else
    let buffer := List.replicate (u32 (u32 (width * height) * samples)) 0
    let numchunks := (bytes.length + linebytelen - 1) / linebytelen
    match pbmChunkLoop bytes linebytelen linecount 0 numchunks buffer with
    | none => .panicked
    | some buf => .ok buf

/-- `PbmBit::from_unsigned`: ASCII bitmap samples must be 0 or 1 and are
inverted (0 is white in pbm, 1 is black). -/
def PbmBit.from_unsigned (val : Nat) : Except ImageError Nat :=
  match val with
  | 0 => .ok 1
  | 1 => .ok 0
  | _ => .error (.FormatError "Sample value outside of bounds")

/-- `BWBit::from_unsigned`: PAM bilevel samples must be 0 or 1 and are kept
unchanged (no inversion). -/
def BWBit.from_unsigned (val : Nat) : Except ImageError Nat :=
  match val with
  | 0 => .ok 0
  | 1 => .ok 1
  | _ => .error (.FormatError "Sample value outside of bounds")

/-- Modelled from the spec: the most-significant-bit-first unpacking of one
byte into its eight bits, written exactly after the spec's words ("bits are
packed 8 per byte, most-significant bit first"). -/
def byteBitsMSB (b : Nat) : List Nat :=
  (List.range 8).map (fun i => (b >>> (7 - i)) % 2)

/-- Modelled from the spec: one decoded bitmap row — the row's
`ceil(width/8)` bytes unpacked MSB-first, truncated to `width` bits (padding
bits beyond `width` are discarded), each bit inverted (source 0 ↦ 1,
source 1 ↦ 0). -/
def pbmSpecRow (rowBytes : List Nat) (width : Nat) : List Nat :=
  ((rowBytes.flatMap byteBitsMSB).take width).map (fun bit => 1 - bit)

/-- Modelled from the spec: the whole binary bitmap decode — `height` rows,
each read from its own `ceil(width/8)`-byte slice of the payload. -/
def pbmSpecDecode (bytes : List Nat) (width height : Nat) : List Nat :=
  let stride := (width + 7) / 8
  (List.range height).flatMap (fun r => pbmSpecRow ((bytes.drop (r * stride)).take stride) width)

/-- Outcome of the scanline entry point: the source can panic, error, or
return a row count. -/
inductive ScanOutcome
  | panicked
  | error (e : ImageError)
  | ok (n : Nat)
deriving DecidableEq

/-- Whether a scanline outcome is an error returned to the caller. -/
def ScanOutcome.isErrorReturn : ScanOutcome → Bool
  | .error _ => true
  | _ => false

/-- Whether a scanline outcome is a successful return of data. -/
def ScanOutcome.isOkReturn : ScanOutcome → Bool
  | .ok _ => true
  | _ => false

/-- `read_scanline`: the body is `unimplemented!()`, which panics
unconditionally for every decoder state and buffer argument. -/
def read_scanline (_buf : List Nat) : ScanOutcome := .panicked

/-! ### Helper lemmas -/

theorem flatMap_congr_mem {α β : Type} {l : List α} {f g : α → List β}
    (h : ∀ a ∈ l, f a = g a) : l.flatMap f = l.flatMap g := by
  induction l with
  | nil => rfl
  | cons a tl ih =>
    simp only [List.flatMap_cons]
    rw [h a (by simp), ih (fun x hx => h x (by simp [hx]))]

theorem length_flatMap_const {α β : Type} {l : List α} {f : α → List β} {n : Nat}
    (h : ∀ a ∈ l, (f a).length = n) : (l.flatMap f).length = l.length * n := by
  induction l with
  | nil => simp
  | cons a tl ih =>
    simp only [List.flatMap_cons, List.length_append, List.length_cons]
    rw [h a (by simp), ih (fun x hx => h x (by simp [hx]))]
    ring

theorem getD_flatMap_const {α β : Type} (dα : α) (dβ : β) :
    ∀ (l : List α) (f : α → List β) (n : Nat), (∀ a ∈ l, (f a).length = n) →
    ∀ i, i < l.length * n →
    (l.flatMap f).getD i dβ = (f (l.getD (i / n) dα)).getD (i % n) dβ := by
  intro l
  induction l with
  | nil => intro f n _ i hi; simp at hi
  | cons a tl ih =>
    intro f n hconst i hi
    have hn : 0 < n := by
      rcases Nat.eq_zero_or_pos n with h0 | h0
      · subst h0; simp at hi
      · exact h0
    have ha : (f a).length = n := hconst a (by simp)
    simp only [List.flatMap_cons]
    by_cases hlt : i < n
    · rw [List.getD_append _ _ _ _ (by omega)]
      rw [Nat.div_eq_of_lt hlt, Nat.mod_eq_of_lt hlt, List.getD_cons_zero]
    · obtain ⟨j, rfl⟩ : ∃ j, i = j + n := ⟨i - n, by omega⟩
      rw [List.getD_append_right _ _ _ _ (by omega), ha]
      simp only [Nat.add_sub_cancel]
      rw [Nat.add_div_right _ hn, Nat.add_mod_right, List.getD_cons_succ]
      apply ih _ _ (fun x hx => hconst x (by simp [hx]))
      have hexp : (tl.length + 1) * n = tl.length * n + n := by ring
      simp only [List.length_cons] at hi
      omega

theorem readLoop_token :
    ∀ (t : List Nat), (∀ b ∈ t, isWsB b = false ∧ b ≠ 35) →
    ∀ (rest : List SItem) (acc : List Nat),
    readNextStringLoop (t.map SItem.ok ++ rest) true acc
      = readNextStringLoop rest true (acc ++ t) := by
  intro t
  induction t with
  | nil => intro _ rest acc; simp
  | cons b tl ih =>
    intro h rest acc
    obtain ⟨hws, h35⟩ := h b (by simp)
    have h35' : (b != 35) = true := by simp [h35]
    simp only [List.map_cons, List.cons_append, readNextStringLoop, h35', hws,
      Bool.and_true, Bool.true_or, Bool.true_and, if_true, Bool.false_eq_true, if_false,
      List.append_eq]
    rw [ih (fun x hx => h x (by simp [hx])) rest (acc ++ [b])]
    simp

theorem pbmRow_eq (bytes : List Nat) (w r stride : Nat)
    (hstride : stride = (w + 7) / 8)
    (hlen : stride * (r + 1) ≤ bytes.length) :
    (List.range w).map (fun c =>
        if (bytes.getD (r * stride + c / 8) 0 >>> (7 - c % 8)) % 2 = 0 then 1 else 0)
      = pbmSpecRow ((bytes.drop (r * stride)).take stride) w := by
  have hmulcomm : r * stride = stride * r := Nat.mul_comm r stride
  have hexp : stride * (r + 1) = stride * r + stride := by ring
  have hrowlen : ((bytes.drop (r * stride)).take stride).length = stride := by
    simp only [List.length_take, List.length_drop]
    omega
  have hbits : ∀ a ∈ (bytes.drop (r * stride)).take stride, (byteBitsMSB a).length = 8 := by
    intro a _; simp [byteBitsMSB]
  have hflatlen : (((bytes.drop (r * stride)).take stride).flatMap byteBitsMSB).length
      = stride * 8 := by
    rw [length_flatMap_const hbits, hrowlen]
  have hw8 : w ≤ stride * 8 := by subst hstride; omega
  apply List.ext_getElem
  · simp only [List.length_map, List.length_range, pbmSpecRow, List.length_take, hflatlen]
    omega
  · intro c hc1 hc2
    simp only [List.length_map, List.length_range] at hc1
    have hcflat : c < (((bytes.drop (r * stride)).take stride).flatMap byteBitsMSB).length := by
      omega
    rw [List.getElem_map, List.getElem_range]
    simp only [pbmSpecRow, List.getElem_map, List.getElem_take]
    rw [← List.getD_eq_getElem _ 0 hcflat]
    rw [getD_flatMap_const 0 0 _ _ 8 hbits c (by rw [hrowlen]; omega)]
    have hc8 : c / 8 < stride := by omega
    have heq : ((bytes.drop (r * stride)).take stride).getD (c / 8) 0
        = bytes.getD (r * stride + c / 8) 0 := by
      rw [List.getD_eq_getElem _ 0 (by rw [hrowlen]; exact hc8),
        List.getElem_take, List.getElem_drop,
        List.getD_eq_getElem bytes 0 (by omega)]
    rw [heq]
    have heq2 : (byteBitsMSB (bytes.getD (r * stride + c / 8) 0)).getD (c % 8) 0
        = (bytes.getD (r * stride + c / 8) 0 >>> (7 - c % 8)) % 2 := by
      rw [List.getD_eq_getElem _ 0 (by simp [byteBitsMSB]; omega)]
      simp [byteBitsMSB]
    rw [heq2]
    rcases Nat.mod_two_eq_zero_or_one
        (bytes.getD (r * stride + c / 8) 0 >>> (7 - c % 8)) with hz | hz
    · rw [hz]; simp
    · rw [hz]; simp

theorem ceil8_eq (w : Nat) : w / 8 + (if w % 8 ≠ 0 then 1 else 0) = (w + 7) / 8 := by
  by_cases h8 : w % 8 = 0 <;> simp [h8] <;> omega

theorem ceil_div_exact (X h : Nat) (hX : 1 ≤ X) : (X * h + X - 1) / X = h := by
  rw [Nat.add_sub_assoc hX, Nat.add_comm, Nat.add_mul_div_left _ _ (by omega : 0 < X),
    Nat.div_eq_of_lt (by omega), Nat.zero_add]

theorem getD_set_eq (l : List Nat) (p j v : Nat) :
    (l.set p v).getD j 0 = if p = j ∧ p < l.length then v else l.getD j 0 := by
  by_cases hj : j < l.length
  · rw [List.getD_eq_getElem _ 0 (by rw [List.length_set]; exact hj), List.getElem_set]
    by_cases hpj : p = j
    · rw [if_pos hpj, if_pos ⟨hpj, by omega⟩]
    · rw [if_neg hpj, if_neg (fun hc => hpj hc.1), List.getD_eq_getElem _ 0 hj]
  · rw [List.getD_eq_default _ 0 (by rw [List.length_set]; omega),
      List.getD_eq_default _ 0 (by omega), if_neg (by omega)]

theorem chunk_getD (bytes : List Nat) (stride r i : Nat) (hi : i < stride)
    (hlen : stride * (r + 1) ≤ bytes.length) :
    ((bytes.drop (r * stride)).take stride).getD i 0 = bytes.getD (r * stride + i) 0 := by
  have hexp : stride * (r + 1) = stride * r + stride := by ring
  have hmc : r * stride = stride * r := Nat.mul_comm r stride
  have h1 : i < ((bytes.drop (r * stride)).take stride).length := by
    simp only [List.length_take, List.length_drop]
    omega
  rw [List.getD_eq_getElem _ 0 h1, List.getElem_take, List.getElem_drop,
    List.getD_eq_getElem bytes 0 (by omega)]

theorem pbmLineLoopSpec (chunk : List Nat) (outbase : Nat) :
    ∀ (k s : Nat) (buffer : List Nat),
    (∀ i, i < k → (s + i) / 8 < chunk.length) →
    outbase + s + k ≤ buffer.length →
    ∃ res, pbmLineLoop chunk outbase s k buffer = some res
      ∧ res.length = buffer.length
      ∧ ∀ j, res.getD j 0 =
          if outbase + s ≤ j ∧ j < outbase + s + k then pbmChunkBit chunk (j - outbase)
          else buffer.getD j 0 := by
  intro k
  induction k with
  | zero =>
    intro s buffer _ _
    refine ⟨buffer, rfl, rfl, fun j => ?_⟩
    rw [if_neg (by omega)]
  | succ k ih =>
    intro s buffer hread hwrite
    have hr0 : s / 8 < chunk.length := by
      have h := hread 0 (by omega)
      simpa using h
    have hw0 : outbase + s < buffer.length := by omega
    have hread2 : ∀ i, i < k → (s + 1 + i) / 8 < chunk.length := by
      intro i hi
      have h := hread (i + 1) (by omega)
      have he : s + (i + 1) = s + 1 + i := by omega
      rwa [he] at h
    have hwrite2 : outbase + (s + 1) + k
        ≤ (buffer.set (outbase + s) (pbmChunkBit chunk s)).length := by
      rw [List.length_set]; omega
    obtain ⟨res, hres, hlen2, hchar⟩ :=
      ih (s + 1) (buffer.set (outbase + s) (pbmChunkBit chunk s)) hread2 hwrite2
    refine ⟨res, ?_, by rw [hlen2, List.length_set], fun j => ?_⟩
    · simp only [pbmLineLoop, pbmReadSample, hr0, if_true, hw0]
      exact hres
    · rw [hchar j, getD_set_eq]
      by_cases hin : outbase + (s + 1) ≤ j ∧ j < outbase + (s + 1) + k
      · rw [if_pos hin, if_pos (by omega)]
      · rw [if_neg hin]
        by_cases hj : outbase + s = j ∧ outbase + s < buffer.length
        · rw [if_pos hj, if_pos (by omega)]
          have he : j - outbase = s := by omega
          rw [he]
        · have hne : outbase + s ≠ j := fun he => hj ⟨he, hw0⟩
          rw [if_neg hj, if_neg (by omega)]

theorem pbmChunkLoopSpec (bytes : List Nat) (stride w : Nat) (hw : 1 ≤ w)
    (hws : w ≤ 8 * stride) :
    ∀ (k line : Nat) (buffer : List Nat),
    stride * (line + k) ≤ bytes.length →
    (line + k) * w ≤ buffer.length →
    ∃ res, pbmChunkLoop bytes stride w line k buffer = some res
      ∧ res.length = buffer.length
      ∧ ∀ j, res.getD j 0 =
          if line * w ≤ j ∧ j < (line + k) * w
          then pbmBitAt bytes stride (j / w) (j % w)
          else buffer.getD j 0 := by
  intro k
  induction k with
  | zero =>
    intro line buffer _ _
    refine ⟨buffer, rfl, rfl, fun j => ?_⟩
    have e0 : (line + 0) * w = line * w := by ring
    rw [if_neg (by omega)]
  | succ k ih =>
    intro line buffer hbytes hbuf
    have e1 : (line + (k + 1)) * w = line * w + k * w + w := by ring
    have e2 : stride * (line + (k + 1)) = stride * line + stride * k + stride := by ring
    have hmc : line * stride = stride * line := Nat.mul_comm line stride
    have hchunklen : ((bytes.drop (line * stride)).take stride).length = stride := by
      simp only [List.length_take, List.length_drop]
      omega
    obtain ⟨buf2, hbuf2, hlen2, hchar2⟩ :=
      pbmLineLoopSpec ((bytes.drop (line * stride)).take stride) (line * w) w 0 buffer
        (by intro i hi; rw [hchunklen]; omega)
        (by omega)
    have e3 : stride * (line + 1 + k) = stride * line + stride * k + stride := by ring
    have e4 : (line + 1 + k) * w = line * w + k * w + w := by ring
    obtain ⟨res, hres, hlen3, hchar3⟩ := ih (line + 1) buf2
      (by omega)
      (by rw [hlen2]; omega)
    refine ⟨res, ?_, by rw [hlen3, hlen2], fun j => ?_⟩
    · simp only [pbmChunkLoop]
      rw [hbuf2]
      exact hres
    · rw [hchar3 j]
      have e5 : (line + 1) * w = line * w + w := by ring
      by_cases h1 : (line + 1) * w ≤ j ∧ j < (line + 1 + k) * w
      · rw [if_pos h1, if_pos (by omega)]
      · rw [if_neg h1, hchar2 j]
        by_cases h2 : line * w + 0 ≤ j ∧ j < line * w + 0 + w
        · rw [if_pos h2, if_pos (by omega)]
          obtain ⟨c, hcw, hj⟩ : ∃ c, c < w ∧ j = line * w + c := ⟨j - line * w, by omega, by omega⟩
          subst hj
          have hjdiv : (line * w + c) / w = line := by
            rw [show line * w + c = c + w * line from by ring,
              Nat.add_mul_div_left _ _ (by omega : 0 < w), Nat.div_eq_of_lt hcw,
              Nat.zero_add]
          have hjmod : (line * w + c) % w = c := by
            rw [show line * w + c = c + w * line from by ring,
              Nat.add_mul_mod_self_left, Nat.mod_eq_of_lt hcw]
          have hsub : line * w + c - line * w = c := by omega
          rw [hjdiv, hjmod, hsub]
          simp only [pbmChunkBit, pbmBitAt]
          have e6 : stride * (line + 1) = stride * line + stride := by ring
          rw [chunk_getD bytes stride line (c / 8) (by omega) (by omega)]
        · rw [if_neg h2, if_neg (by omega)]

/-! ### Claim theorems -/

/-- Claim C1, counterexample: the claim quantifies over every P4 input, but
at header width 0 (a parseable header — the last conjunct shows the token
"0" parses as a width) the sample loop calls `bytes.chunks(0)` and panics
instead of decoding, and at width 2^31, height 16 the `u32` length product
wraps to 0, so the engine reads 0 bytes rather than `h` rows of `ceil(w/8)`
bytes (which would be 2^32). -/
theorem c1_counterexample :
    PbmBit.from_bytes [] 0 1 1 = .panicked
    ∧ PbmBit.bytelen 2147483648 16 1 = 0
    ∧ ((2147483648 + 7) / 8) * 16 = 4294967296
    ∧ readNextU32 ((strToBytes "0 ").map SItem.ok) = .ok 0 :=
  ⟨rfl, by decide, by decide, rfl⟩

/-- Claim C1, amended: for every binary bitmap whose header has
`1 ≤ width < 2^32` and `width * height < 2^32` (no wrap in the `u32` length
arithmetic), the payload is exactly `height` rows of `ceil(width/8)` bytes
each, and the decode succeeds and equals the specification decode: each
row's bytes unpacked most-significant-bit first, truncated to `width` bits
(padding bits discarded), each bit inverted (source 0 ↦ 1, source 1 ↦ 0).
At width 0 the engine panics in `bytes.chunks(0)`, and overflowing products
wrap.  Concretely, the packed byte 0b01101100 at width 8 decodes to
[1,0,0,1,0,0,1,1], which starts with [1,0,0,1,0,0]. -/
theorem c1_amended :
    (∀ (w h : Nat) (bytes : List Nat),
      1 ≤ w → w < 4294967296 → w * h < 4294967296 →
      bytes.length = PbmBit.bytelen w h 1 →
      PbmBit.bytelen w h 1 = ((w + 7) / 8) * h
        ∧ PbmBit.from_bytes bytes w h 1 = .ok (pbmSpecDecode bytes w h))
    ∧ PbmBit.from_bytes [108] 8 1 1 = .ok [1, 0, 0, 1, 0, 0, 1, 1] := by
  refine ⟨?_, rfl⟩
  intro w h bytes hw1 hw32 hwh hlen
  have hstr1 : 1 ≤ (w + 7) / 8 := by omega
  have hstrw : (w + 7) / 8 ≤ w := by omega
  have hsh : (w + 7) / 8 * h ≤ w * h := Nat.mul_le_mul_right h hstrw
  have hbytelen : PbmBit.bytelen w h 1 = ((w + 7) / 8) * h := by
    simp only [PbmBit.bytelen, u32, Nat.mul_one]
    rw [Nat.mod_eq_of_lt hw32, ceil8_eq]
    exact Nat.mod_eq_of_lt (by omega)
  refine ⟨hbytelen, ?_⟩
  have hlen' : bytes.length = ((w + 7) / 8) * h := by rw [hlen, hbytelen]
  have e1 : u32 (w * 1) = w := by
    simp only [u32, Nat.mul_one]
    exact Nat.mod_eq_of_lt hw32
  have e2 : u32 (u32 (w * h) * 1) = w * h := by
    simp only [u32, Nat.mul_one]
    rw [Nat.mod_eq_of_lt hwh, Nat.mod_eq_of_lt hwh]
  simp only [PbmBit.from_bytes, e1, e2, ceil8_eq]
  rw [if_neg (by omega : ¬((w + 7) / 8 = 0))]
  have hnum : (bytes.length + (w + 7) / 8 - 1) / ((w + 7) / 8) = h := by
    rw [hlen']
    exact ceil_div_exact _ h hstr1
  rw [hnum]
  obtain ⟨res, hres, hlenr, hchar⟩ :=
    pbmChunkLoopSpec bytes ((w + 7) / 8) w hw1 (by omega) h 0 (List.replicate (w * h) 0)
      (by rw [Nat.zero_add, hlen'])
      (by rw [Nat.zero_add, List.length_replicate]; exact Nat.le_of_eq (Nat.mul_comm h w))
  rw [hres]
  show DecodeOutcome.ok res = DecodeOutcome.ok (pbmSpecDecode bytes w h)
  congr 1
  have hrows : ∀ a ∈ List.range h, ((List.range w).map (fun c =>
      if (bytes.getD (a * ((w + 7) / 8) + c / 8) 0 >>> (7 - c % 8)) % 2 = 0
      then 1 else 0)).length = w := by
    intro a _
    simp
  have hflat : res = (List.range h).flatMap (fun r => (List.range w).map (fun c =>
      if (bytes.getD (r * ((w + 7) / 8) + c / 8) 0 >>> (7 - c % 8)) % 2 = 0
      then 1 else 0)) := by
    apply List.ext_getElem
    · rw [hlenr, List.length_replicate, length_flatMap_const hrows, List.length_range]
      exact Nat.mul_comm w h
    · intro j hj1 hj2
      have hjwh : j < w * h := by
        rw [hlenr, List.length_replicate] at hj1
        exact hj1
      have hcond : 0 * w ≤ j ∧ j < (0 + h) * w := by
        constructor
        · rw [Nat.zero_mul]; exact Nat.zero_le j
        · rw [Nat.zero_add, Nat.mul_comm h w]; exact hjwh
      rw [← List.getD_eq_getElem _ 0 hj1, ← List.getD_eq_getElem _ 0 hj2]
      rw [hchar j, if_pos hcond]
      have hbound : j < (List.range h).length * w := by
        rw [List.length_range, Nat.mul_comm h w]
        exact hjwh
      rw [getD_flatMap_const 0 0 _ _ w hrows j hbound]
      have hjw : j / w < h := by
        rw [Nat.div_lt_iff_lt_mul (by omega : 0 < w), Nat.mul_comm h w]
        exact hjwh
      have hrge : (List.range h).getD (j / w) 0 = j / w := by
        rw [List.getD_eq_getElem _ 0 (by rw [List.length_range]; exact hjw),
          List.getElem_range]
      rw [hrge]
      have hmod : j % w < w := Nat.mod_lt j (by omega)
      rw [List.getD_eq_getElem _ 0 (by simpa using hmod), List.getElem_map,
        List.getElem_range]
      simp only [pbmBitAt]
  rw [hflat]
  simp only [pbmSpecDecode]
  apply flatMap_congr_mem
  intro r hr
  rw [List.mem_range] at hr
  apply pbmRow_eq bytes w r ((w + 7) / 8) rfl
  rw [hlen']
  exact Nat.mul_le_mul_left _ (by omega)

/-- Claim C1, amended, witness: the repository's own `pbm_binary` test
payload (width 6, height 2, bytes 0b01101100 and 0b10110111) satisfies
every hypothesis, and the decode succeeds with the specification value. -/
theorem c1_amended_witness :
    PbmBit.from_bytes [108, 183] 6 2 1 = .ok (pbmSpecDecode [108, 183] 6 2) :=
  (c1_amended.1 6 2 [108, 183] (by decide) (by decide) (by decide) (by decide)).2

/-- Claim C2: every ASCII bitmap sample token must be 0 or 1 (anything else
is a bounds error) and is inverted on output (0 ↦ 1, 1 ↦ 0); consequently the
ASCII token row "0 1 1 0 1 1" at width 6 decodes to [1,0,0,1,0,0], the same
sample buffer the binary path produces from the packed byte 0b01101100. -/
theorem c2_ascii_bitmap_inversion :
    (∀ v : Nat, PbmBit.from_unsigned v =
      if v = 0 then .ok 1
      else if v = 1 then .ok 0
      else .error (.FormatError "Sample value outside of bounds"))
    ∧ readAscii PbmBit.from_unsigned 6 (strToBytes "0 1 1 0 1 1") = .ok [1, 0, 0, 1, 0, 0]
    ∧ PbmBit.from_bytes [108] 6 1 1 = .ok [1, 0, 0, 1, 0, 0] := by
  refine ⟨?_, rfl, rfl⟩
  intro v
  match v with
  | 0 => rfl
  | 1 => rfl
  | _ + 2 => rfl

/-- Claim C3: the color classification mapping.  Five tuple types map to the
classifications the claim lists, but the 16-bit RGB tuple type is classified
as `GrayA(16)` — a grayscale-with-alpha tag — contradicting the claim; the
last conjunct shows the `RGBU16` tuple type is reachable from a pixmap
header with maxval 65535. -/
theorem c3_color_classification :
    TupleType.color .PbmBit = .Gray 1
    ∧ TupleType.color .BWBit = .Gray 1
    ∧ TupleType.color .GrayU8 = .Gray 8
    ∧ TupleType.color .GrayU16 = .Gray 16
    ∧ TupleType.color .RGBU8 = .RGB 8
    ∧ TupleType.color .RGBU16 = .GrayA 16
    ∧ PixmapHeader.tuple_type ⟨.Binary, 1, 1, 65535⟩ = .ok .RGBU16 :=
  ⟨rfl, rfl, rfl, rfl, rfl, rfl, rfl⟩

/-- Claim C4, counterexample: a Grayscale PAM header with depth 0 resolves
successfully to `GrayU16` (the source's second Grayscale guard tests
`depth <= 1`, not `depth == 1`), while the claim requires a `FormatError`
for every depth other than 1, including 0. -/
theorem c4_counterexample :
    ArbitraryHeader.tuple_type ⟨1, 1, 0, 100, some .Grayscale⟩ = .ok .GrayU16 := rfl

/-- Claim C4, amended: Grayscale resolution yields `GrayU8` exactly when
depth = 1 and maxval ≤ 255, `GrayU16` exactly when depth ≤ 1 and
maxval ≤ 65535 and the Gray8 case does not apply (in particular depth 0
succeeds), and a `FormatError` exactly when depth ≥ 2 or maxval > 65535. -/
theorem c4_amended :
    ∀ hh ww d m : Nat,
    (ArbitraryHeader.tuple_type ⟨hh, ww, d, m, some .Grayscale⟩ = .ok .GrayU8
      ↔ d = 1 ∧ m ≤ 255)
    ∧ (ArbitraryHeader.tuple_type ⟨hh, ww, d, m, some .Grayscale⟩ = .ok .GrayU16
      ↔ d ≤ 1 ∧ m ≤ 65535 ∧ ¬(d = 1 ∧ m ≤ 255))
    ∧ (ArbitraryHeader.tuple_type ⟨hh, ww, d, m, some .Grayscale⟩
        = .error (.FormatError "Invalid depth or maxval for tuple type GRAYSCALE")
      ↔ 2 ≤ d ∨ 65536 ≤ m) := by
  intro hh ww d m
  unfold ArbitraryHeader.tuple_type
  split_ifs with h1 h2 <;> refine ⟨?_, ?_, ?_⟩ <;> simp_all <;> omega

/-- Claim C5, counterexample: a P7 header whose second HEIGHT line occurs
after ENDHDR parses successfully — the line loop breaks at ENDHDR and never
sees the duplicate, while the claim requires a failure naming HEIGHT
regardless of where the duplicate occurs. -/
theorem c5_counterexample :
    readArbitraryHeader (strToBytes "\nHEIGHT 1\nWIDTH 1\nDEPTH 1\nMAXVAL 1\nENDHDR\nHEIGHT 2\n")
      = .ok ⟨1, 1, 1, 1, none⟩ := rfl

/-- Claim C5, amended: a second HEIGHT line encountered before ENDHDR always
fails with `FormatError "Duplicate HEIGHT line"` — whatever lines follow and
whatever the other fields hold — but the loop stops at ENDHDR, so a HEIGHT
line after ENDHDR is never read (it is left in the stream as payload). -/
theorem c5_amended :
    (∀ (h : Nat) (wd dp mx : Option Nat) (tt : Option (List Nat)) (rest : List (List Nat)),
      parsePamLines (strToBytes "HEIGHT 2\n" :: rest) (some h) wd dp mx tt
        = .error (.FormatError "Duplicate HEIGHT line"))
    ∧ readArbitraryHeader (strToBytes "\nHEIGHT 1\nHEIGHT 2\nENDHDR\n")
      = .error (.FormatError "Duplicate HEIGHT line") :=
  ⟨fun _ _ _ _ _ _ => rfl, rfl⟩

/-- Claim C6, counterexample: an ASCII bitmap payload with a `#` comment
between two sample tokens fails to decode (the `#` is read as part of a
token and fails numeric parsing), while the same payload with the comment
removed decodes to [1, 0]; the claim requires both to decode equally. -/
theorem c6_counterexample :
    readAscii PbmBit.from_unsigned 2 (strToBytes "0 #c\n1")
      = .error (.FormatError "Error parsing sample value")
    ∧ readAscii PbmBit.from_unsigned 2 (strToBytes "0 1") = .ok [1, 0] :=
  ⟨rfl, rfl⟩

/-- Claim C6, amended: comments are handled by the header tokenizer
(`read_next_string`) but not by the ASCII sample path: `read_ascii_sample`
treats `#` as an ordinary token byte, so any sample token starting with `#`
fails with the sample parse error. -/
theorem c6_amended :
    (∀ rest : List Nat, (∀ b ∈ rest, b < 128) →
      (readAsciiSample (35 :: rest)).1 = .error (.FormatError "Error parsing sample value"))
    ∧ readNextString ((strToBytes "#c\n7 ").map SItem.ok) = .ok (strToBytes "7") := by
  refine ⟨?_, rfl⟩
  intro rest hascii
  have h35 : istoken 35 = true := rfl
  simp only [readAsciiSample, List.dropWhile_cons, h35, Bool.not_true, Bool.false_eq_true,
    if_false, List.takeWhile_cons, if_true]
  have hall : ((35 : Nat) :: rest.takeWhile istoken).all (fun b => b < 128) = true := by
    rw [List.all_eq_true]
    intro x hx
    rcases List.mem_cons.mp hx with h | h
    · subst h; decide
    · have : x ∈ rest := (List.takeWhile_sublist istoken).mem h
      simp [hascii x this]
  rw [hall]
  have hparse : parseU32 (35 :: rest.takeWhile istoken) = none := by
    simp [parseU32, isDigitB]
  rw [hparse]
  rfl

/-- Claim C6, amended, witness at a concrete input. -/
theorem c6_amended_witness :
    (readAsciiSample (35 :: [99])).1 = .error (.FormatError "Error parsing sample value") :=
  c6_amended.1 [99] (by decide)

/-- Claim C7, counterexample: a token with a leading `+` sign parses
successfully (`"+7"` yields 7 — Rust's `u32` parser accepts an optional
leading `+`), while the claim requires every signed token to fail. -/
theorem c7_counterexample :
    readNextU32 [.ok 43, .ok 55, .ok 32] = .ok 7 := rfl

/-- Claim C7, amended: for any token (delimited here by a trailing space),
`read_next_u32` succeeds exactly when the token is an optional leading `+`
followed by decimal digits whose value fits in 32 bits, and fails with
`FormatError "Invalid number in preamble"` otherwise; in particular a `-`
sign fails, an overflowing value fails, but a leading `+` is accepted. -/
theorem c7_amended :
    (∀ t : List Nat, t ≠ [] →
      (∀ b ∈ t, isWsB b = false ∧ b ≠ 35 ∧ b < 128) →
      readNextU32 (t.map SItem.ok ++ [SItem.ok 32]) =
        match parseU32 t with
        | some v => .ok v
        | none => .error (.FormatError "Invalid number in preamble"))
    ∧ parseU32 (strToBytes "-7") = none
    ∧ parseU32 (strToBytes "4294967296") = none
    ∧ parseU32 (strToBytes "+7") = some 7 := by
  refine ⟨?_, rfl, by decide, rfl⟩
  intro t hne h
  have hs : readNextString (t.map SItem.ok ++ [SItem.ok 32]) = .ok t := by
    unfold readNextString
    rw [readLoop_token t (fun b hb => ⟨(h b hb).1, (h b hb).2.1⟩) [SItem.ok 32] []]
    simp only [List.nil_append, readNextStringLoop]
    have hemp : t.isEmpty = false := by
      cases t with
      | nil => exact absurd rfl hne
      | cons a l => rfl
    have hall : t.all (fun b => b < 128) = true := by
      rw [List.all_eq_true]; intro x hx; simp [(h x hx).2.2]
    simp [finishToken, hemp, hall, isWsB]
  unfold readNextU32
  rw [hs]

/-- Claim C7, amended, witness at a concrete token. -/
theorem c7_amended_witness :
    readNextU32 ([53].map SItem.ok ++ [SItem.ok 32]) = .ok 5 :=
  c7_amended.1 [53] (by decide) (by decide)

/-- Claim C8, counterexample: `read_scanline` is `unimplemented!()` — it
panics; the outcome is not an error returned to the caller, contradicting
the claim that an unsupported-operation error is its returned outcome. -/
theorem c8_counterexample :
    read_scanline [] = .panicked ∧ (read_scanline []).isErrorReturn = false :=
  ⟨rfl, rfl⟩

/-- Claim C8, amended: for every buffer argument, `read_scanline` panics via
`unimplemented!()` — it never succeeds and never produces data, but the
fault is a panic rather than a returned error value. -/
theorem c8_amended :
    ∀ buf : List Nat, read_scanline buf = .panicked ∧ (read_scanline buf).isOkReturn = false :=
  fun _ => ⟨rfl, rfl⟩

/-- Claim C9, counterexample: an IO read failure while a token is being
accumulated makes `read_next_string` return the partial token assembled from
the bytes read before the failure (here `"A"`), and an IO failure before any
byte accumulates is reported as a `FormatError`, not an `IoError`. -/
theorem c9_counterexample :
    readNextString [.ok 65, .ioerr, .ok 66] = .ok [65]
    ∧ readNextString [.ioerr] = .error (.FormatError "Unexpected eof") :=
  ⟨rfl, rfl⟩

/-- Claim C9, amended: the tokenizer treats an IO read failure outside a
comment as end of input: whatever token bytes were accumulated before the
failure are returned as a successful token (and an empty accumulation gives
`FormatError "Unexpected eof"`); `IoError` is never surfaced. -/
theorem c9_amended :
    ∀ (pre : List Nat) (post : List SItem), pre ≠ [] →
    (∀ b ∈ pre, isWsB b = false ∧ b ≠ 35 ∧ b < 128) →
    readNextString (pre.map SItem.ok ++ SItem.ioerr :: post) = .ok pre := by
  intro pre post hne h
  unfold readNextString
  rw [readLoop_token pre (fun b hb => ⟨(h b hb).1, (h b hb).2.1⟩) (SItem.ioerr :: post) []]
  simp only [List.nil_append, readNextStringLoop, if_true]
  have hemp : pre.isEmpty = false := by
    cases pre with
    | nil => exact absurd rfl hne
    | cons a l => rfl
  have hall : pre.all (fun b => b < 128) = true := by
    rw [List.all_eq_true]; intro x hx; simp [(h x hx).2.2]
  simp [finishToken, hemp, hall]

/-- Claim C9, amended, witness at a concrete stream. -/
theorem c9_amended_witness :
    readNextString ([65].map SItem.ok ++ SItem.ioerr :: [SItem.ok 66]) = .ok [65] :=
  c9_amended [65] [SItem.ok 66] (by decide) (by decide)

/-- Claim C10: whenever the stream is exhausted before an ENDHDR line is
read — whatever fields have been collected so far — the next `read_line`
yields an empty line and `line.as_bytes()[0]` panics with an out-of-bounds
index instead of returning a structured error; in particular a P7 stream
that ends right after the mandatory newline panics, as does one ending after
a complete field line. -/
theorem c10_truncated_pam_header_panics :
    (∀ (ht wd dp mx : Option Nat) (tt : Option (List Nat)),
      parsePamLines [] ht wd dp mx tt = .panicked)
    ∧ readArbitraryHeader (strToBytes "\n") = .panicked
    ∧ readArbitraryHeader (strToBytes "\nWIDTH 2\n") = .panicked :=
  ⟨fun _ _ _ _ _ => rfl, rfl, rfl⟩

end Pnm
